import Mathlib

/-!
Shallow embedding of the synchronization engine of the CRM mirror
(`src/app.py`): naming/sanitization, cursor validation, the idempotent
upsert path, the Bitrix client's response handling, the webhook queue and
its worker, and the rate-limit throttle.  All definitions are translated
from the Python source; line numbers in doc comments refer to
`src/app.py` unless noted otherwise.
-/

namespace CRM

/-! ## Decimal rendering of naturals

Python renders the numeric suffix of a colliding column name with an
f-string (`f"{base}_{i}"`), i.e. ordinary decimal notation.  We embed that
rendering directly (least significant digit first, then reversed), which
agrees with `str(i)` for every natural number. -/

/-- The decimal digit characters `'0'..'9'` (argument expected `< 10`). -/
def digitChr : Nat → Char
  | 0 => '0' | 1 => '1' | 2 => '2' | 3 => '3' | 4 => '4'
  | 5 => '5' | 6 => '6' | 7 => '7' | 8 => '8' | _ => '9'

/-- Numeric value of a decimal digit character. -/
def charVal (c : Char) : Nat := c.toNat - 48

/-- Decimal digits of `n`, least significant first. -/
def natDigitsRev (n : Nat) : List Char :=
  if h : n < 10 then [digitChr n]
  else digitChr (n % 10) :: natDigitsRev (n / 10)
termination_by n
decreasing_by
  exact Nat.div_lt_self (by omega) (by omega)

/-- Value of a digit list, least significant first. -/
def valRev : List Char → Nat
  | [] => 0
  | c :: cs => charVal c + 10 * valRev cs

/-- Decimal string of a natural number: the embedding of Python `str(i)`. -/
def natStr (n : Nat) : String := ⟨(natDigitsRev n).reverse⟩

/-! ## Identifier sanitization (`sanitize_ident`, `src/app.py:524-534`)

```python
def sanitize_ident(name, max_len=55):
    name = str(name).lower()
    name = re.sub(r"[^a-z0-9_]+", "_", name)
    name = re.sub(r"_+", "_", name).strip("_")
    if not name: name = "field"
    if len(name) > max_len: name = name[:max_len].rstrip("_")
    if name[0].isdigit(): name = f"f_{name}"
    return name
```
`str.lower` is modelled by `Char.toLower` (ASCII lowering; any character
that is not ASCII-lowercase-alphanumeric or underscore is replaced by an
underscore by the first substitution in both the source and the model). -/

/-- Characters kept by the regex class `[a-z0-9_]`. -/
def isSafeChar (c : Char) : Bool :=
  ('a' ≤ c && c ≤ 'z') || ('0' ≤ c && c ≤ '9') || c == '_'

/-- `re.sub(r"[^a-z0-9_]+", "_", ·)`: each maximal run of unsafe
characters becomes a single underscore. -/
def collapseBad : List Char → List Char
  | [] => []
  | c :: cs =>
    if isSafeChar c then c :: collapseBad cs
    else '_' :: collapseBad (cs.dropWhile (fun d => !isSafeChar d))
termination_by l => l.length
decreasing_by
  · simp
  · have := (List.dropWhile_suffix (l := cs) (fun d => !isSafeChar d)).sublist.length_le
    simp only [List.length_cons]
    omega

/-- `re.sub(r"_+", "_", ·)`: each maximal run of underscores becomes a
single underscore. -/
def collapseUnd : List Char → List Char
  | [] => []
  | c :: cs =>
    if c == '_' then '_' :: collapseUnd (cs.dropWhile (fun d => d == '_'))
    else c :: collapseUnd cs
termination_by l => l.length
decreasing_by
  · have := (List.dropWhile_suffix (l := cs) (fun d : Char => d == '_')).sublist.length_le
    simp only [List.length_cons]
    omega
  · simp

/-- Python `str.strip("_")`. -/
def stripUnd (l : List Char) : List Char :=
  ((l.dropWhile (fun c => c == '_')).reverse.dropWhile (fun c => c == '_')).reverse

/-- Python `str.rstrip("_")`. -/
def rstripUnd (l : List Char) : List Char :=
  (l.reverse.dropWhile (fun c => c == '_')).reverse

/-- `sanitize_ident` (`src/app.py:524-534`).  The final `match` models
`name[0].isdigit()`; the empty case is unreachable for `maxLen ≥ 1`
(Python would raise an `IndexError` there). -/
def sanitize_ident (name : String) (maxLen : Nat := 55) : String :=
  let l1 := name.toList.map Char.toLower
  let l2 := stripUnd (collapseUnd (collapseBad l1))
  let l3 := if l2.isEmpty then "field".toList else l2
  let l4 := rstripUnd (l3.take maxLen)
  match l4 with
  | [] => ⟨l4⟩
  | c :: _ => if c.isDigit then ⟨'f' :: '_' :: l4⟩ else ⟨l4⟩

/-! ## Collision-free column naming (`unique_column_name`, `src/app.py:536-545`)

```python
def unique_column_name(existing, base):
    if base not in existing:
        existing.add(base); return base
    i = 2
    while f"{base}_{i}" in existing: i += 1
    col = f"{base}_{i}"; existing.add(col); return col
```
The mutated `existing` set is modelled as a `List String` threaded by the
caller (the function always adds exactly the name it returns, which the
caller loop `assignGo` mirrors).  The unbounded `while` search is modelled
as a search over `2 .. existing.length + 2`; a free suffix always exists
in that range, so the fallback branch is unreachable and the result is the
least free suffix, exactly as in the source. -/

/-- `f"{base}_{i}"`. -/
def colCandidate (base : String) (i : Nat) : String := base ++ "_" ++ natStr i

/-- `unique_column_name` (`src/app.py:536-545`). -/
def unique_column_name (existing : List String) (base : String) : String :=
  if base ∈ existing then
    match (List.range (existing.length + 1)).find?
        (fun k => decide (colCandidate base (k + 2) ∉ existing)) with
    | some k => colCandidate base (k + 2)
    | none => colCandidate base (existing.length + 3)
  else base

/-- The schema-refresh naming loop (`src/app.py:1745-1749` and the
identical loops for contacts, leads and smart processes): each remote
field name is sanitized and then made unique against the names already
assigned, which are accumulated into `existing`. -/
def assignGo : List String → List String → List String
  | [], _ => []
  | f :: fs, existing =>
    let col := unique_column_name existing (sanitize_ident f)
    col :: assignGo fs (col :: existing)

/-- Local column names assigned to a list of remote field names, in
declaration order, starting from the reserved base columns
(`src/app.py:1745`). -/
def assign_columns (fields : List String) : List String :=
  assignGo fields ["id", "raw", "created_at", "updated_at"]

/-! ## Cursor validation (`validate_sync_cursor`, `src/app.py:463-490`)

Inputs are the stored cursor (`get_sync_cursor`, 0 when missing or
unparsable) and the outcome of `SELECT MAX(id)` on the entity table:
`none` models the exception branch (table missing / query error), and the
SQL `NULL` of an empty table is already coerced to 0 by the source
(`... or 0`).  The result pairs the cursor value the sync proceeds with
and whether `set_sync_cursor(conn, entity_key, 0)` was issued. -/
def validate_sync_cursor (last_id : Int) (maxDbId : Option Int) : Int × Bool :=
  if last_id = 0 then (0, false)
  else
    match maxDbId with
    | none => (last_id, false)
    | some m => if last_id > m + 1000 then (0, true) else (last_id, false)

/-! ## Python substring search (`needle in hay`) -/

/-- `needle.isPrefixOf hay ∨ needle in hay.tail` — Python `in` on strings. -/
def strContainsAux (needle : List Char) : List Char → Bool
  | [] => needle.isEmpty
  | c :: t => needle.isPrefixOf (c :: t) || strContainsAux needle t

/-- Python `needle in hay` for strings. -/
def strContains (hay needle : String) : Bool :=
  strContainsAux needle.toList hay.toList

/-! ## Structural models of Python string primitives

These agree with `str.upper` / `str.lower` / `str.strip` / `int(...)` on
the ASCII inputs the code handles. -/

/-- Python `str.upper` (ASCII). -/
def strUpper (s : String) : String := ⟨s.data.map Char.toUpper⟩

/-- Python `str.lower` (ASCII). -/
def strLower (s : String) : String := ⟨s.data.map Char.toLower⟩

/-- ASCII whitespace, as stripped by Python `str.strip()`. -/
def isPySpace (c : Char) : Bool :=
  c == ' ' || c == '\t' || c == '\n' || c == '\r' || c == '\x0b' || c == '\x0c'

/-- Python `str.strip()` (ASCII whitespace). -/
def pyStrip (s : String) : String :=
  ⟨((s.data.dropWhile isPySpace).reverse.dropWhile isPySpace).reverse⟩

/-- Decimal value of a digit run; `none` when empty or non-digit. -/
def digitsVal : List Char → Option Nat
  | [] => none
  | l =>
    if l.all Char.isDigit then
      some (l.foldl (fun acc c => acc * 10 + charVal c) 0)
    else none

/-- Python `int(s)` on a string: optional sign, decimal digits,
surrounding whitespace allowed. -/
def pyIntParse (s : String) : Option Int :=
  match (pyStrip s).data with
  | '-' :: rest => (digitsVal rest).map (fun n => -(n : Int))
  | '+' :: rest => (digitsVal rest).map (fun n => (n : Int))
  | l => (digitsVal l).map (fun n => (n : Int))

/-- Split at the first occurrence of a separator character. -/
def splitOnce (sep : Char) : List Char → Option (List Char × List Char)
  | [] => none
  | c :: t =>
    if c = sep then some ([], t)
    else (splitOnce sep t).map (fun p => (c :: p.1, p.2))

/-! ## Python values

A single value type covers JSON payloads decoded from Bitrix responses
and the values handed to `normalize_value` / `upsert_rows`.  `pjson v`
models the psycopg2 `Json(...)` adapter wrapping `v`. -/

inductive PVal where
  | pnone
  | pbool (b : Bool)
  | pint (n : Int)
  | pstr (s : String)
  | plist (xs : List PVal)
  | pdict (fs : List (String × PVal))
  | pjson (v : PVal)

/-! Python `repr` of a decoded JSON value (used through `str` on
containers).  Escaping of special characters inside strings is not
modelled; the error codes compared against it are plain identifiers. -/

mutual

def pyRepr : PVal → String
  | .pnone => "None"
  | .pbool true => "True"
  | .pbool false => "False"
  | .pint n => toString n
  | .pstr s => "\x27" ++ s ++ "\x27"
  | .plist xs => "[" ++ pyReprList xs ++ "]"
  | .pdict fs => "\x7b" ++ pyReprFields fs ++ "\x7d"
  | .pjson v => pyRepr v

def pyReprList : List PVal → String
  | [] => ""
  | [x] => pyRepr x
  | x :: xs => pyRepr x ++ ", " ++ pyReprList xs

def pyReprFields : List (String × PVal) → String
  | [] => ""
  | [kv] => "\x27" ++ kv.1 ++ "\x27: " ++ pyRepr kv.2
  | kv :: kvs => "\x27" ++ kv.1 ++ "\x27: " ++ pyRepr kv.2 ++ ", " ++ pyReprFields kvs

end

/-- Python `str` of a decoded JSON value: identity on strings, `repr`
elsewhere. -/
def pyStr : PVal → String
  | .pstr s => s
  | v => pyRepr v

/-- Python truthiness of a decoded JSON value. -/
def pyTruthy : PVal → Bool
  | .pnone => false
  | .pbool b => b
  | .pint n => n != 0
  | .pstr s => s ≠ ""
  | .plist xs => !xs.isEmpty
  | .pdict fs => !fs.isEmpty
  | .pjson _ => true

/-- `_extract_int` (`src/app.py:2609-2622`).  `int(float(s))` is modelled
for integral decimal strings and for strings with a fractional part
(truncation toward zero); other strings fail, as in the source's
`except` branch. -/
def pyFloatToInt (s : String) : Option Int :=
  match pyIntParse s with
  | some n => some n
  | none =>
    match splitOnce '.' (pyStrip s).data with
    | some (a, b) =>
      if !b.isEmpty && b.all Char.isDigit then pyIntParse ⟨a⟩ else none
    | none => none

def extract_int : PVal → Option Int
  | .pnone => none
  | .pbool _ => none
  | .pint n => some n
  | v =>
    let s := pyStrip (pyStr v)
    if s = "" then none else pyFloatToInt s

/-! ## Applied value normalization (`normalize_value`, `src/app.py:1487-1514`)

`src/app.py` defines `normalize_value` twice at module level (lines 1382
and 1487); by Python shadowing, the later definition is the one bound at
call time for every caller in the module, so it is the one embedded here.
`str.strip()` is modelled by `String.trim`, `str.lower` by ASCII
lowering. -/

/-- `b24_type` is truthy and names a text type — the only case in which
an empty string is kept (`src/app.py:1508-1512`). -/
def isTextType : Option String → Bool
  | none => false
  | some t =>
    t ≠ "" && (strLower t == "string" || strLower t == "text" || strLower t == "char")

def normalize_value (v : PVal) (b24_type : Option String) (is_multiple : Bool) : PVal :=
  if is_multiple then
    match v with
    | .pnone => .pnone
    | .plist _ => .pjson v
    | .pdict _ => .pjson v
    | _ => .pjson (.plist [v])
  else
    match v with
    | .plist _ => .pjson v
    | .pdict _ => .pjson v
    | .pstr s =>
      if pyStrip s = "" && !isTextType b24_type then .pnone else v
    | _ => v

/-! ## Idempotent upsert (`upsert_rows`, `src/app.py:1440-1479`)

A stored row is an association list from column name to value (the
columns the statement mentions; table columns never mentioned keep their
value in both compared states and are omitted).  A table associates the
primary id with its row.  `applySet` is the semantics of
`ON CONFLICT ("id") DO UPDATE SET c = EXCLUDED."c", ...`: every listed
column receives the excluded value, every other column is kept.
`upsertOne` with an unextractable id models the statement aborting (a
NULL primary key): no change is committed. -/

abbrev Row (V : Type) := List (String × V)
abbrev Tbl (V : Type) := List (Int × Row V)

/-- The duplicate-column removal at `src/app.py:1450-1455` (first
occurrence wins). -/
def dedupAux : List String → List String → List String
  | [], _ => []
  | c :: cs, seen => if c ∈ seen then dedupAux cs seen else c :: dedupAux cs (c :: seen)

def dedup_columns (cols : List String) : List String := dedupAux cols []

/-- `set_cols`: every column except `id`, `created_at`, `updated_at`
(`src/app.py:1461`). -/
def setPairs {V : Type} (pairs : Row V) : Row V :=
  pairs.filter (fun cv => !(cv.1 == "id" || cv.1 == "created_at" || cv.1 == "updated_at"))

/-- Apply an SQL `SET` list to a stored row: listed columns take the new
value (also when the physical column was not previously materialized in
the model), all others are kept. -/
def applySet {V : Type} (stored updates : Row V) : Row V :=
  stored.map (fun cv =>
    match updates.lookup cv.1 with
    | some u => (cv.1, u)
    | none => cv) ++
  updates.filter (fun cv => (stored.lookup cv.1).isNone)

/-- Fields stored by the INSERT arm: the given values, plus the
`updated_at` column default `now()` when the statement does not list it
(`src/app.py:586-587`). -/
def insertRowFields {V : Type} (pairs : Row V) (nowVal : V) : Row V :=
  pairs ++ (if (pairs.lookup "updated_at").isSome then [] else [("updated_at", nowVal)])

/-- One row of the upsert: `INSERT ... ON CONFLICT ("id") DO UPDATE`.
`vid` decodes the id column's value into the primary-key integer. -/
def upsertOne {V : Type} (vid : V → Option Int) (nowVal : V) (table : Tbl V)
    (pairs : Row V) : Tbl V :=
  match (pairs.lookup "id").bind vid with
  | none => table
  | some i =>
    if (table.lookup i).isSome then
      table.map (fun r =>
        (r.1, if r.1 = i then applySet r.2 (setPairs pairs ++ [("updated_at", nowVal)]) else r.2))
    else
      table ++ [(i, insertRowFields pairs nowVal)]

/-- `upsert_rows` (`src/app.py:1440-1479`).  An empty row list is a no-op;
a row whose arity does not match the deduplicated column list would make
`execute_values` raise before anything is committed, leaving the table
unchanged. -/
def upsert_rows {V : Type} (vid : V → Option Int) (nowVal : V) (table : Tbl V)
    (columns : List String) (rows : List (List V)) : Tbl V :=
  if rows.isEmpty then table
  else
    let colOrder := dedup_columns columns
    if rows.all (fun r => r.length = colOrder.length) then
      rows.foldl (fun t vals => upsertOne vid nowVal t (colOrder.zip vals)) table
    else table

/-! ## Single-record upsert (`_upsert_single_item`, `src/app.py:2735-2779`) -/

/-- One `b24_meta_fields` entry as loaded by `load_entity_colmap`
(`src/app.py:1364-1380`). -/
structure ColMeta where
  column_name : String
  b24_type : Option String
  is_multiple : Bool

/-- The field-value probe at `src/app.py:2766-2773`: the remote field
name, then its upper- and lower-case variants, then `item["fields"]`.
`some .pnone` means the key is present with a `None` value (in which case
the assignment at line 2775-2776 is skipped). -/
def fieldValue (item : List (String × PVal)) (f : String) : Option PVal :=
  match item.lookup f with
  | some v => some v
  | none =>
    match item.lookup (strUpper f) with
    | some v => some v
    | none =>
      match item.lookup (strLower f) with
      | some v => some v
      | none =>
        match item.lookup "fields" with
        | some (.pdict fs) => fs.lookup f
        | _ => none

/-- `row[col] = value`: overwrite the entry of an initialized row dict. -/
def setAssoc {V : Type} (row : Row V) (k : String) (v : V) : Row V :=
  row.map (fun cv => (cv.1, if cv.1 == k then v else cv.2))

/-- The column order built at `src/app.py:2750-2753`:
`["id", "raw"] + sorted(set(column names))`, plus `updated_at` when not
already present. -/
def singleItemColOrder (colmap : List (String × ColMeta)) : List String :=
  let base := ["id", "raw"] ++
    (dedup_columns (colmap.map (fun fm => fm.2.column_name))).mergeSort
      (fun a b => decide (a ≤ b))
  base ++ (if "updated_at" ∈ base then [] else ["updated_at"])

/-- `_upsert_single_item` (`src/app.py:2735-2779`): build the row dict
(initialized to `None`, then `id`, `raw`, `updated_at`, then one
normalized value per mapped field that is present and not `None`) and
funnel it through `upsert_rows`.  Returns the source's boolean result and
the table after the call.  `nowVal` stands for
`datetime.now(timezone.utc)` / the SQL `now()`. -/
def upsert_single_item (colmap : List (String × ColMeta)) (nowVal : PVal)
    (table : Tbl PVal) (item : List (String × PVal)) : Bool × Tbl PVal :=
  if colmap.isEmpty then (false, table)
  else
    let rawId := match item.lookup "ID" with
      | some v => some v
      | none => item.lookup "id"
    match rawId.bind extract_int with
    | none => (false, table)
    | some eid =>
      if eid = 0 then (false, table)
      else
        let colOrder := singleItemColOrder colmap
        let row0 := colOrder.map (fun c => (c, PVal.pnone))
        let row1 := setAssoc (setAssoc (setAssoc row0 "id" (.pint eid))
          "raw" (.pjson (.pdict item))) "updated_at" nowVal
        let row2 := colmap.foldl (fun acc fm =>
          match fieldValue item fm.1 with
          | some .pnone => acc
          | some v =>
            setAssoc acc fm.2.column_name
              (normalize_value v fm.2.b24_type fm.2.is_multiple)
          | none => acc) row1
        let vals := colOrder.map (fun c => (row2.lookup c).getD .pnone)
        (true, upsert_rows (fun v => match v with | .pint n => some n | _ => none)
          nowVal table colOrder [vals])

/-! ## Webhook queue (`src/app.py:2563-2871`) -/

/-- One `b24_webhook_queue` row (the columns the worker reads/writes).
`next_run_at` is an absolute timestamp in seconds. -/
structure QEvent where
  qid : Nat
  entity_key : String
  entity_id : Int
  event_name : String
  status : String
  attempts : Nat
  next_run_at : Int
  last_error : Option String
deriving DecidableEq

/-- `_enqueue_webhook_event` (`src/app.py:2682-2697`): an unconditional
INSERT of a fresh row with `status='new'`, `attempts=0`,
`next_run_at=now()`; `qid` models the `bigserial` key. -/
def enqueue_webhook_event (now : Int) (q : List QEvent) (ek : String) (eid : Int)
    (ev : String) : List QEvent :=
  q ++ [⟨q.length, ek, eid, ev, "new", 0, now, none⟩]

/-- A queue row that is still pending: its status is neither `done` nor
`error`. -/
def pendingStatus (s : String) : Bool := !(s == "done" || s == "error")

/-- Number of pending queue rows for one `(entity_key, entity_id)`. -/
def pendingCount (q : List QEvent) (ek : String) (eid : Int) : Nat :=
  (q.filter (fun e => e.entity_key == ek && e.entity_id == eid
    && pendingStatus e.status)).length

/-- The worker's failure backoff (`src/app.py:2830` and `2855`):
`min(300, 5 * (attempts + 1))` seconds. -/
def backoffDelay (attempts : Nat) : Nat := min 300 (5 * (attempts + 1))

/-- `"DELETE" in ev.upper() or "REMOVE" in ev.upper()`
(`src/app.py:2821`). -/
def is_delete_event (ev : String) : Bool :=
  strContains (strUpper ev) "DELETE" || strContains (strUpper ev) "REMOVE"

/-- Result of processing one due job: the job row as last written back to
the queue, the entity table afterwards, and whether `_bitrix_get_one`
was invoked. -/
structure WorkerStep where
  job : QEvent
  table : Tbl PVal
  fetched : Bool

/-- One iteration of the per-job body of `webhook_queue_worker`
(`src/app.py:2805-2863`).  The job is first marked `processing`
(line 2817); `fetch` is the outcome of `_bitrix_get_one` (`none` covers
the overload / error / missing-record cases, which the source collapses
to `None`). -/
def processJob (now : Int) (nowVal : PVal) (colmap : List (String × ColMeta))
    (table : Tbl PVal) (fetch : Option (List (String × PVal))) (job : QEvent) :
    WorkerStep :=
  if is_delete_event job.event_name then
    ⟨{ job with status := "done", last_error := none }, table, false⟩
  else
    match fetch with
    | none =>
      ⟨{ job with
          status := "retry"
          attempts := job.attempts + 1
          next_run_at := now + backoffDelay job.attempts
          last_error := some "bitrix blocked / empty" }, table, true⟩
    | some item =>
      let r := upsert_single_item colmap nowVal table item
      if r.1 then
        ⟨{ job with status := "done", last_error := none }, r.2, true⟩
      else
        ⟨{ job with
            status := "retry"
            attempts := job.attempts + 1
            next_run_at := now + backoffDelay job.attempts
            last_error := some "upsert failed" }, r.2, true⟩

/-! ## Rate limiting (`BitrixClient._throttle`, `src/app.py:284-289`)

```python
def _throttle(self):
    now = time.time()
    dt = now - self._last_call_ts
    if dt < BITRIX_MIN_REQUEST_INTERVAL_SEC:
        time.sleep(BITRIX_MIN_REQUEST_INTERVAL_SEC - dt)
    self._last_call_ts = time.time()
```
Wall-clock time is modelled by rationals.  A call entering `_throttle` at
time `now` leaves it (and fires its request) at `now` when enough time
has passed, and at `last + m` after the sleep otherwise; `_last_call_ts`
is then that leave time. -/

structure ThrottleState where
  last : ℚ
deriving DecidableEq

/-- One serialized pass through `_throttle` with minimum interval `m`:
fire time and updated state. -/
def throttle (m : ℚ) (now : ℚ) (s : ThrottleState) : ℚ × ThrottleState :=
  let fire := if now - s.last < m then s.last + m else now
  (fire, ⟨fire⟩)

/-- Fire times of a sequence of serialized calls entering `_throttle` at
the given times (each call completes before the next begins). -/
def throttleRun (m : ℚ) : ThrottleState → List ℚ → List ℚ
  | _, [] => []
  | s, t :: ts =>
    let r := throttle m t s
    r.1 :: throttleRun m r.2 ts

/-- Two threads interleaved through `_throttle` without a lock: both
execute lines 285-287 (read `_last_call_ts`, find `dt ≥ m`, skip the
sleep) before either executes lines 288-289 (write and fire).  Each fire
time is therefore computed against the same stale `last0`. -/
def racedFires (m : ℚ) (last0 : ℚ) (t1 t2 : ℚ) : ℚ × ℚ :=
  ((throttle m t1 ⟨last0⟩).1, (throttle m t2 ⟨last0⟩).1)

/-! ## Response handling of `BitrixClient.call` (`src/app.py:291-351`)

One loop iteration is a function of the HTTP outcome of the POST.
`resp status body?` is an HTTP response with the given status code;
`body? = none` means the payload is not JSON (`r.json()` raises — inside
the 401 branch that is swallowed by the bare `except`, in the 200 path
`requests`' `JSONDecodeError` is a `RequestException` and triggers the
retry arm).  `transportFail` is a `requests.RequestException` from the
POST itself. -/

inductive HttpResp where
  | transportFail
  | resp (status : Nat) (body : Option PVal)

inductive CallResult where
  | ok (data : PVal)
  | httpError (status : Nat)
  | retriesExhausted
  | pyError

/-- The value returned on an overload signal
(`src/app.py:314` and `331`). -/
def overloadResult : PVal :=
  .pdict [("error", .pstr "OVERLOAD_LIMIT"), ("result", .plist [])]

/-- The guarded check of the 401 branch (`src/app.py:310-316`): the body
parses as JSON, is a dict containing `"error"`, and
`str(data.get("error")) == "OVERLOAD_LIMIT"`; every exception inside the
branch (decode error, `in` on a non-container, `.get` on a non-dict) is
swallowed by the bare `except` and yields `False`. -/
def overload401 (body? : Option PVal) : Bool :=
  match body? with
  | some (.pdict fs) =>
    match fs.lookup "error" with
    | some v => pyStr v == "OVERLOAD_LIMIT"
    | none => false
  | _ => false

/-- Python `"error" in data` (`src/app.py:326`): key test on a dict,
membership on a list, substring test on a string, `TypeError` otherwise
(uncaught there). -/
def pyHasErrorKey : PVal → Except Unit Bool
  | .pdict fs => .ok (fs.any (fun kv => kv.1 == "error"))
  | .plist xs => .ok (xs.any (fun x => match x with | .pstr s => s == "error" | _ => false))
  | .pstr s => .ok (strContains s "error")
  | _ => .error ()

/-- Python `data.get("error")` (`src/app.py:327`): `AttributeError` on a
non-dict (uncaught there). -/
def pyGetError : PVal → Except Unit (Option PVal)
  | .pdict fs => .ok (fs.lookup "error")
  | _ => .error ()

inductive StepOut where
  | finish (r : CallResult)
  | again

/-- One iteration of the retry loop of `BitrixClient.call`
(`src/app.py:296-349`), as a function of the HTTP outcome. -/
def callStep : HttpResp → StepOut
  | .transportFail => .again
  | .resp status body? =>
    if status = 429 then .again
    else if status = 401 then
      if overload401 body? then .finish (.ok overloadResult)
      else .finish (.httpError 502)
    else if status ≠ 200 then .finish (.httpError 502)
    else
      match body? with
      | none => .again
      | some data =>
        match pyHasErrorKey data with
        | .error _ => .finish .pyError
        | .ok false => .finish (.ok data)
        | .ok true =>
          match pyGetError data with
          | .error _ => .finish .pyError
          | .ok v? =>
            let err := pyStr (v?.getD .pnone)
            if err == "OVERLOAD_LIMIT" then .finish (.ok overloadResult)
            else if err == "OPERATION_TIME_LIMIT" || err == "QUERY_LIMIT_EXCEEDED"
                || strContains err "LIMIT" then .again
            else .finish (.httpError 502)

/-- The retry loop `for attempt in range(BITRIX_MAX_RETRIES)`
(`src/app.py:296-351`): consume one HTTP outcome per attempt; falling off
the loop raises the `Bitrix retry limit exceeded` HTTPException
(`retriesExhausted`).  A response list shorter than the remaining
attempts is treated as exhausted. -/
def callLoop : Nat → List HttpResp → CallResult
  | 0, _ => .retriesExhausted
  | _ + 1, [] => .retriesExhausted
  | n + 1, r :: rest =>
    match callStep r with
    | .finish res => res
    | .again => callLoop n rest

/-- `BitrixClient.call` over an oracle of successive HTTP outcomes. -/
def bitrix_call (maxRetries : Nat) (responses : List HttpResp) : CallResult :=
  callLoop maxRetries responses

/-- The remote side reports the explicit overload/blocked signal: HTTP
401 with `OVERLOAD_LIMIT` in the JSON body, or HTTP 200 with
`OVERLOAD_LIMIT` as the body's error code. -/
def isOverloadSignal : HttpResp → Bool
  | .resp status body => (status == 401 || status == 200) && overload401 body
  | .transportFail => false

/-! ## List-response normalization (`normalize_list_result`,
`src/app.py:1519-1556`) and the contact sync loop
(`sync_entity_data_contact`, `src/app.py:2055-2142`) -/

/-- `resp.get(k)` on a decoded value: `none` when `resp` is not a dict or
the key is missing. -/
def jGet (v : PVal) (k : String) : Option PVal :=
  match v with
  | .pdict fs => fs.lookup k
  | _ => none

/-- Python `.get` results compare with `is not None`: a JSON `null` and a
missing key are both `None`. -/
def asPyOpt : Option PVal → Option PVal
  | some .pnone => none
  | o => o

/-- Python `x or y` over an optional left operand. -/
def pyOrElse (x : Option PVal) (y : PVal) : PVal :=
  match x with
  | some v => if pyTruthy v then v else y
  | none => y

def isDict : PVal → Bool
  | .pdict _ => true
  | _ => false

/-- Python `int(x)` where the source applies it to a `next` counter:
defined for ints, bools and integral strings; `none` models the raised
exception for anything else. -/
def pyIntOf : PVal → Option Int
  | .pint n => some n
  | .pbool b => some (if b then 1 else 0)
  | .pstr s => pyIntParse s
  | _ => none

/-- `normalize_list_result` (`src/app.py:1519-1556`).  The outer `none`
models the single way the function can raise: `int(...)` on a
non-numeric `next` value. -/
def normalize_list_result (resp? : Option PVal) : Option (List PVal × Option Int) :=
  match resp? with
  | none => some ([], none)
  | some resp =>
    match resp with
    | .plist xs => some (xs.filter isDict, none)
    | .pdict fs =>
      let top_next := asPyOpt (fs.lookup "next")
      match fs.lookup "result" with
      | some (.plist xs) =>
        let items := xs.filter isDict
        match top_next with
        | none => some (items, none)
        | some tn => (pyIntOf tn).map (fun k => (items, some k))
      | some (.pdict inner) =>
        let items0 := pyOrElse (inner.lookup "items")
          (pyOrElse (inner.lookup "result") (.plist []))
        let items := (match items0 with
          | .plist xs => xs
          | _ => ([] : List PVal)).filter isDict
        let nxt := match asPyOpt (inner.lookup "next") with
          | some v => some v
          | none => top_next
        match nxt with
        | none => some (items, none)
        | some tn => (pyIntOf tn).map (fun k => (items, some k))
      | _ => some ([], none)
    | _ => some ([], none)

/-- The overload postprocessing shared by the list fetchers
(`b24_list_contacts`, `src/app.py:1694-1696`): an `OVERLOAD_LIMIT` error
becomes an empty successful page. -/
def overload_to_empty (resp : PVal) : PVal :=
  match resp with
  | .pdict fs =>
    if !fs.isEmpty then
      match fs.lookup "error" with
      | some (.pstr "OVERLOAD_LIMIT") => .pdict [("result", .plist [])]
      | _ => resp
    else resp
  | _ => resp

/-- Request parameters built by `b24_list_contacts`
(`src/app.py:1675-1687`): the `start` offset and, when positive, the
`{">ID": start}` filter. -/
structure ContactReq where
  start : Int
  filterGtId : Option Int
deriving DecidableEq

def contact_request (start : Int) : ContactReq :=
  ⟨start, if start > 0 then some start else none⟩

/-- Pagination state of `sync_entity_data_contact`: the `start` offset of
the next request, the persisted `b24_sync_state` cursor, and the running
row count. -/
structure ContactSyncState where
  last_offset : Int
  cursor : Int
  total : Nat
deriving DecidableEq

/-- The ids of the rows built at `src/app.py:2098-2125`:
`contact_id = it.get("ID") or it.get("id")`, skipped when falsy, then
`int(contact_id)`.  Each built row stores its id first
(`col_order = ["id", "raw", ...]`), which is all line 2135 reads from it;
the remaining row construction feeds `upsert_rows` and does not influence
the cursor logic. -/
def rowIdsOfItems (items : List PVal) : List Int :=
  items.filterMap (fun it =>
    let cid := pyOrElse (jGet it "ID") (pyOrElse (jGet it "id") .pnone)
    if pyTruthy cid then pyIntOf cid else none)

/-- One iteration of the `while True` loop of `sync_entity_data_contact`
(`src/app.py:2087-2140`), given the raw response of
`b24_list_contacts(start=last_offset, ...)`.  Returns the new state and
whether the loop continues.  The outer `normalize_list_result` failure
(unparsable `next`) propagates as an exception, aborting the loop with
the state unchanged. -/
def sync_contact_step (limit : Int) (st : ContactSyncState) (resp : PVal) :
    ContactSyncState × Bool :=
  match normalize_list_result (some (overload_to_empty resp)) with
  | none => (st, false)
  | some (items, nxt) =>
    if items.isEmpty then
      ({ st with cursor := if st.last_offset > 0 then st.last_offset else 0 }, false)
    else
      let ids := rowIdsOfItems items
      let total' := st.total + ids.length
      match nxt with
      | some n =>
        ({ last_offset := n, cursor := n, total := total' },
          !(0 < limit && (limit : Int) ≤ (total' : Int)))
      | none =>
        let lsi := (ids.getLast?).getD st.last_offset
        let lsi2 := if lsi ≠ 0 then lsi else st.last_offset
        ({ st with cursor := lsi2, total := total' }, false)

end CRM

namespace CRM

/-! ## Lemmas about decimal rendering and unique naming -/

theorem charVal_digitChr : ∀ d : Nat, d < 10 → charVal (digitChr d) = d := by
  decide

theorem valRev_natDigitsRev (n : Nat) : valRev (natDigitsRev n) = n := by
  induction n using Nat.strong_induction_on with
  | _ n ih =>
    unfold natDigitsRev
    split
    · next h =>
      simp [valRev, charVal_digitChr n h]
    · next h =>
      have hd : n / 10 < n := Nat.div_lt_self (by omega) (by omega)
      simp [valRev, ih (n / 10) hd, charVal_digitChr (n % 10) (Nat.mod_lt _ (by omega))]
      omega

theorem natDigitsRev_injective : Function.Injective natDigitsRev := by
  intro a b h
  have := valRev_natDigitsRev a
  rw [h, valRev_natDigitsRev] at this
  omega

theorem natStr_injective : Function.Injective natStr := by
  intro a b h
  have hdata : (natDigitsRev a).reverse = (natDigitsRev b).reverse :=
    congrArg String.data h
  exact natDigitsRev_injective (List.reverse_injective hdata)

theorem string_data_append (s t : String) : (s ++ t).data = s.data ++ t.data := rfl

theorem colCandidate_injective (base : String) :
    Function.Injective (colCandidate base) := by
  intro i j h
  have hdata : (base ++ "_").data ++ (natStr i).data
      = (base ++ "_").data ++ (natStr j).data := by
    have h' : ((base ++ "_") ++ natStr i).data = ((base ++ "_") ++ natStr j).data := by
      simpa [colCandidate, String.append_assoc] using congrArg String.data h
    simpa [string_data_append] using h'
  have : (natStr i).data = (natStr j).data := List.append_cancel_left hdata
  have : natStr i = natStr j := by
    cases hi : natStr i with
    | mk di =>
      cases hj : natStr j with
      | mk dj =>
        have : di = dj := by
          have h1 := congrArg String.data hi
          have h2 := congrArg String.data hj
          simp at h1 h2
          rw [← h1, ← h2]; exact ‹(natStr i).data = (natStr j).data›
        simp [this]
  exact natStr_injective this

/-- Pigeonhole: among the suffixes `2 .. existing.length + 2` some
candidate is not already taken. -/
theorem exists_fresh_candidate (existing : List String) (base : String) :
    ∃ k, k < existing.length + 1 ∧ colCandidate base (k + 2) ∉ existing := by
  by_contra h
  push_neg at h
  have hinj : Function.Injective (fun k : Fin (existing.length + 1) =>
      colCandidate base (k.1 + 2)) := by
    intro a b hab
    have := colCandidate_injective base hab
    exact Fin.ext (by omega)
  have hmaps : ∀ k : Fin (existing.length + 1),
      colCandidate base (k.1 + 2) ∈ existing.toFinset := by
    intro k
    exact List.mem_toFinset.mpr (h k.1 k.2)
  have hcard : (Finset.univ : Finset (Fin (existing.length + 1))).card
      ≤ existing.toFinset.card :=
    Finset.card_le_card_of_injOn (fun k => colCandidate base (k.1 + 2))
      (fun k _ => hmaps k) (fun a _ b _ hab => hinj hab)
  have hle : existing.toFinset.card ≤ existing.length := existing.toFinset_card_le
  simp [Finset.card_univ, Fintype.card_fin] at hcard
  omega

/-- The name returned by `unique_column_name` is never already taken. -/
theorem unique_column_name_fresh (existing : List String) (base : String) :
    unique_column_name existing base ∉ existing := by
  unfold unique_column_name
  split
  · next hmem =>
    cases hfind : (List.range (existing.length + 1)).find?
        (fun k => decide (colCandidate base (k + 2) ∉ existing)) with
    | some k =>
      simp only
      have := List.find?_some hfind
      simpa using this
    | none =>
      exfalso
      obtain ⟨k, hk, hfree⟩ := exists_fresh_candidate existing base
      have hmemr : k ∈ List.range (existing.length + 1) := List.mem_range.mpr hk
      have := List.find?_eq_none.mp hfind k hmemr
      simp [hfree] at this
  · next hmem => exact hmem

/-! ## Association-list lemmas for the upsert model -/

theorem lookup_append {α β : Type} [BEq α] (A B : List (α × β)) (c : α) :
    (A ++ B).lookup c = (A.lookup c).or (B.lookup c) := by
  induction A with
  | nil => simp [List.lookup, Option.or]
  | cons hd tl ih =>
    obtain ⟨k, v⟩ := hd
    cases hk : c == k
    · simpa [List.lookup, hk] using ih
    · simp [List.lookup, hk, Option.or]

theorem lookup_applySet_map {V : Type} (u s : Row V) (c : String) :
    (s.map (fun cv =>
      match u.lookup cv.1 with
      | some x => (cv.1, x)
      | none => cv)).lookup c
    = (s.lookup c).map (fun w =>
        match u.lookup c with
        | some x => x
        | none => w) := by
  induction s with
  | nil => rfl
  | cons hd tl ih =>
    obtain ⟨k, v⟩ := hd
    by_cases hk : c = k
    · subst hk
      cases hu : u.lookup c <;> simp [List.lookup, hu]
    · have hkb : (c == k) = false := beq_eq_false_iff_ne.mpr hk
      cases hu : u.lookup k <;> simp [List.lookup, hkb, hu, ih]

theorem lookup_applySet_filter {V : Type} (s u : Row V) (c : String) :
    (u.filter (fun cv => (s.lookup cv.1).isNone)).lookup c
      = if (s.lookup c).isNone then u.lookup c else none := by
  induction u with
  | nil => simp [List.lookup]
  | cons hd tl ih =>
    obtain ⟨k, v⟩ := hd
    by_cases hk : c = k
    · subst hk
      cases hs : (s.lookup c).isNone <;> simp [List.filter, List.lookup, hs, ih]
    · have hkb : (c == k) = false := beq_eq_false_iff_ne.mpr hk
      cases hs : (s.lookup k).isNone <;> simp [List.filter, List.lookup, hs, hkb, ih]

theorem lookup_applySet {V : Type} (stored updates : Row V) (c : String) :
    (applySet stored updates).lookup c =
      match updates.lookup c with
      | some u => some u
      | none => stored.lookup c := by
  unfold applySet
  rw [lookup_append, lookup_applySet_map, lookup_applySet_filter]
  cases hu : updates.lookup c <;> cases hs : stored.lookup c <;>
    simp [hu, hs, Option.or]

theorem lookup_setPairs {V : Type} (pairs : Row V) (c : String) :
    (setPairs pairs).lookup c =
      if c == "id" || c == "created_at" || c == "updated_at" then none
      else pairs.lookup c := by
  induction pairs with
  | nil => simp [setPairs, List.lookup]
  | cons hd tl ih =>
    obtain ⟨k, v⟩ := hd
    by_cases hk : c = k
    · subst hk
      cases hkeep : (c == "id" || c == "created_at" || c == "updated_at") <;>
        simp [setPairs, List.filter, List.lookup, hkeep] <;>
        simpa [setPairs, hkeep] using ih
    · have hkb : (c == k) = false := beq_eq_false_iff_ne.mpr hk
      cases hkeep : (k == "id" || k == "created_at" || k == "updated_at") <;>
        simp [setPairs, List.filter, List.lookup, hkeep, hkb] <;>
        simpa [setPairs] using ih

theorem lookup_upsert_map {V : Type} (t : Tbl V) (u : Row V) (i : Int) (j : Int) :
    (t.map (fun r => (r.1, if r.1 = i then applySet r.2 u else r.2))).lookup j
      = (t.lookup j).map (fun w => if j = i then applySet w u else w) := by
  induction t with
  | nil => rfl
  | cons hd tl ih =>
    obtain ⟨k, v⟩ := hd
    by_cases hk : j = k
    · subst hk
      simp [List.lookup]
    · have hkb : (j == k) = false := beq_eq_false_iff_ne.mpr hk
      simp [List.lookup, hkb, ih]

/-- The update arm of `upsertOne`. -/
theorem upsertOne_eq_update {V : Type} (vid : V → Option Int) (nowVal : V)
    (t : Tbl V) (pairs : Row V) (i : Int)
    (hid : (pairs.lookup "id").bind vid = some i) (ht : (t.lookup i).isSome) :
    upsertOne vid nowVal t pairs
      = t.map (fun r => (r.1,
          if r.1 = i then applySet r.2 (setPairs pairs ++ [("updated_at", nowVal)])
          else r.2)) := by
  simp only [upsertOne, hid, if_pos ht]

/-- The insert arm of `upsertOne`. -/
theorem upsertOne_eq_insert {V : Type} (vid : V → Option Int) (nowVal : V)
    (t : Tbl V) (pairs : Row V) (i : Int)
    (hid : (pairs.lookup "id").bind vid = some i) (htn : t.lookup i = none) :
    upsertOne vid nowVal t pairs = t ++ [(i, insertRowFields pairs nowVal)] := by
  simp only [upsertOne, hid]
  rw [if_neg (by simp [htn])]

/-- The no-op arm of `upsertOne` (no primary key could be extracted). -/
theorem upsertOne_eq_noop {V : Type} (vid : V → Option Int) (nowVal : V)
    (t : Tbl V) (pairs : Row V)
    (hid : (pairs.lookup "id").bind vid = none) :
    upsertOne vid nowVal t pairs = t := by
  simp only [upsertOne, hid]

/-- After an upsert of a row whose id decodes to `i`, the table has a row
at `i`. -/
theorem upsertOne_lookup_isSome {V : Type} (vid : V → Option Int) (nowVal : V)
    (t : Tbl V) (pairs : Row V) (i : Int)
    (hid : (pairs.lookup "id").bind vid = some i) :
    ((upsertOne vid nowVal t pairs).lookup i).isSome := by
  by_cases ht : (t.lookup i).isSome
  · rw [upsertOne_eq_update vid nowVal t pairs i hid ht, lookup_upsert_map]
    obtain ⟨R0, hR0⟩ := Option.isSome_iff_exists.mp ht
    simp [hR0]
  · have htn : t.lookup i = none := Option.not_isSome_iff_eq_none.mp ht
    rw [upsertOne_eq_insert vid nowVal t pairs i hid htn, lookup_append, htn]
    simp [List.lookup, Option.or]

/-- A column listed in the SET clause holds the given value after the
upsert, in both the insert and the update arm. -/
theorem upsertOne_lookup_set {V : Type} (vid : V → Option Int) (nowVal : V)
    (t : Tbl V) (pairs : Row V) (i : Int) (c : String) (v : V)
    (hid : (pairs.lookup "id").bind vid = some i)
    (hcv : (setPairs pairs).lookup c = some v) :
    ((upsertOne vid nowVal t pairs).lookup i).bind (fun r => r.lookup c) = some v := by
  have hcv' := hcv
  rw [lookup_setPairs] at hcv'
  have hkeep : (c == "id" || c == "created_at" || c == "updated_at") = false := by
    cases hcond : (c == "id" || c == "created_at" || c == "updated_at")
    · rfl
    · rw [hcond] at hcv'
      simp at hcv'
  rw [hkeep] at hcv'
  have hpairs : pairs.lookup c = some v := by simpa using hcv'
  by_cases ht : (t.lookup i).isSome
  · rw [upsertOne_eq_update vid nowVal t pairs i hid ht, lookup_upsert_map]
    obtain ⟨R0, hR0⟩ := Option.isSome_iff_exists.mp ht
    rw [hR0]
    simp only [Option.map_some', Option.some_bind, if_true]
    rw [lookup_applySet, lookup_append, hcv]
    simp [Option.or]
  · have htn : t.lookup i = none := Option.not_isSome_iff_eq_none.mp ht
    rw [upsertOne_eq_insert vid nowVal t pairs i hid htn, lookup_append, htn]
    have hsingle : List.lookup i [(i, insertRowFields pairs nowVal)]
        = some (insertRowFields pairs nowVal) := by simp [List.lookup]
    rw [hsingle]
    simp only [Option.or, Option.some_bind]
    unfold insertRowFields
    rw [lookup_append, hpairs]
    simp [Option.or]

/-- Upserting the same row twice leaves every column of every stored row,
except `updated_at`, exactly as after the first upsert. -/
theorem upsertOne_idempotent {V : Type} (vid : V → Option Int) (n1 n2 : V)
    (t0 : Tbl V) (pairs : Row V) (j : Int) (c : String) (hc : c ≠ "updated_at") :
    ((upsertOne vid n2 (upsertOne vid n1 t0 pairs) pairs).lookup j).bind
        (fun r => r.lookup c)
      = ((upsertOne vid n1 t0 pairs).lookup j).bind (fun r => r.lookup c) := by
  cases hid : (pairs.lookup "id").bind vid with
  | none => rw [upsertOne_eq_noop vid n2 _ pairs hid]
  | some i =>
    have h1some := upsertOne_lookup_isSome vid n1 t0 pairs i hid
    rw [upsertOne_eq_update vid n2 _ pairs i hid h1some, lookup_upsert_map]
    by_cases hj : j = i
    · subst hj
      obtain ⟨R1, hR1⟩ := Option.isSome_iff_exists.mp h1some
      rw [hR1]
      simp only [Option.map_some', Option.some_bind, if_true]
      rw [lookup_applySet]
      have hcb : (c == "updated_at") = false := beq_eq_false_iff_ne.mpr hc
      have hu2 : ((setPairs pairs ++ [("updated_at", n2)]).lookup c)
          = (setPairs pairs).lookup c := by
        rw [lookup_append]
        cases hsp : (setPairs pairs).lookup c <;>
          simp [List.lookup, hcb, Option.or]
      rw [hu2]
      cases hsp : (setPairs pairs).lookup c with
      | none => simp
      | some v =>
        have hset := upsertOne_lookup_set vid n1 t0 pairs j c v hid hsp
        rw [hR1] at hset
        simp only [Option.some_bind] at hset
        simp [hset]
    · cases ht1j : List.lookup j (upsertOne vid n1 t0 pairs) <;> simp [ht1j, hj]

/-- Every name produced by the naming loop avoids the `existing` set it
started from, and the produced names are pairwise distinct. -/
theorem assignGo_nodup_disjoint (fs : List String) (existing : List String) :
    (assignGo fs existing).Nodup ∧ ∀ c ∈ assignGo fs existing, c ∉ existing := by
  induction fs generalizing existing with
  | nil => simp [assignGo]
  | cons f fs ih =>
    simp only [assignGo]
    set col := unique_column_name existing (sanitize_ident f) with hcol
    obtain ⟨htailnd, htail⟩ := ih (col :: existing)
    constructor
    · refine List.nodup_cons.mpr ⟨?_, htailnd⟩
      intro hmem
      exact (htail col hmem) (List.mem_cons_self col existing)
    · intro c hc
      rcases List.mem_cons.mp hc with hceq | hcm
      · subst hceq
        exact unique_column_name_fresh existing (sanitize_ident f)
      · intro hcex
        exact (htail c hcm) (List.mem_cons_of_mem _ hcex)

/-! ## Claim theorems -/

/-- C1 — counterexample: enqueuing two notifications for the same
`(entity_key, entity_id)` while the first is still pending leaves TWO
pending rows in the queue, refuting "at all times the webhook queue holds
at most one pending event per `(entity_key, entity_id)`". -/
theorem webhook_enqueue_no_dedup_cex :
    pendingCount
      (enqueue_webhook_event 0
        (enqueue_webhook_event 0 [] "deal" 7 "ONCRMDEALUPDATE")
        "deal" 7 "ONCRMDEALUPDATE") "deal" 7 = 2 ∧
    ¬(pendingCount
      (enqueue_webhook_event 0
        (enqueue_webhook_event 0 [] "deal" 7 "ONCRMDEALUPDATE")
        "deal" 7 "ONCRMDEALUPDATE") "deal" 7 ≤ 1) := by
  constructor
  · rfl
  · decide

/-- C1 (amended): `_enqueue_webhook_event` performs no deduplication: every
notification appends exactly one fresh row with status `new`, so a second
notification for an already-pending `(entity_key, entity_id)` increases
the pending count to two (the dedup described by the spec does not
exist in the code). -/
theorem webhook_enqueue_adds_pending (q : List QEvent) (now : Int) (ek : String)
    (eid : Int) (ev : String) :
    (enqueue_webhook_event now q ek eid ev).length = q.length + 1 ∧
    pendingCount (enqueue_webhook_event now q ek eid ev) ek eid
      = pendingCount q ek eid + 1 := by
  constructor
  · simp [enqueue_webhook_event]
  · simp [pendingCount, enqueue_webhook_event, pendingStatus, List.filter_append]

/-- C2 — counterexample: the worker's retry delays after 1, 2 and 3
failures are 5 s, 10 s and 15 s — linear, not geometric (`10·10 ≠ 5·15`),
well below the 300 s cap — and an event that has already failed a million
times is still rescheduled as `retry`, never marked `error`; this refutes
the exponential-backoff/retry-ceiling claim. -/
theorem webhook_backoff_not_exponential_cex :
    (processJob 0 .pnone [] [] none
      ⟨0, "deal", 7, "ONCRMDEALUPDATE", "processing", 1000000, 0, none⟩).job.status
        = "retry" ∧
    (processJob 0 .pnone [] [] none
      ⟨0, "deal", 7, "ONCRMDEALUPDATE", "processing", 1000000, 0, none⟩).job.status
        ≠ "error" ∧
    (processJob 0 .pnone [] [] none
      ⟨0, "deal", 7, "ONCRMDEALUPDATE", "processing", 1000000, 0, none⟩).job.next_run_at
        = 300 ∧
    backoffDelay 0 = 5 ∧ backoffDelay 1 = 10 ∧ backoffDelay 2 = 15 ∧
    backoffDelay 2 < 300 ∧
    backoffDelay 1 * backoffDelay 1 ≠ backoffDelay 0 * backoffDelay 2 := by
  refine ⟨rfl, by decide, rfl, rfl, rfl, rfl, by decide, by decide⟩

/-- C2 (amended): a fetch failure marks the event `retry`, increments
`attempts`, and schedules `next_run_at = now + min(300, 5·(attempts+1))`
— a linearly growing delay capped at 300 seconds; the status is never set
to `error`, so the event remains due for retry indefinitely (it is never
silently discarded, but no retry ceiling exists either). -/
theorem webhook_retry_linear_backoff (now : Int) (nowVal : PVal)
    (colmap : List (String × ColMeta)) (table : Tbl PVal) (job : QEvent)
    (hdel : is_delete_event job.event_name = false) :
    (processJob now nowVal colmap table none job).job.status = "retry" ∧
    (processJob now nowVal colmap table none job).job.attempts = job.attempts + 1 ∧
    (processJob now nowVal colmap table none job).job.next_run_at
      = now + min 300 (5 * (job.attempts + 1)) ∧
    (processJob now nowVal colmap table none job).job.status ≠ "error" ∧
    (∀ a : Nat, backoffDelay a ≤ 300 ∧ backoffDelay a ≤ backoffDelay (a + 1)) := by
  refine ⟨?_, ?_, ?_, ?_, ?_⟩
  · simp [processJob, hdel]
  · simp [processJob, hdel]
  · simp [processJob, hdel, backoffDelay]
  · simp [processJob, hdel]
  · intro a
    unfold backoffDelay
    omega

theorem webhook_retry_linear_backoff_witness :
    is_delete_event "ONCRMDEALUPDATE" = false ∧
    (processJob 0 .pnone [] [] none
      ⟨0, "deal", 7, "ONCRMDEALUPDATE", "new", 0, 0, none⟩).job.status = "retry" :=
  ⟨rfl, (webhook_retry_linear_backoff 0 .pnone [] []
    ⟨0, "deal", 7, "ONCRMDEALUPDATE", "new", 0, 0, none⟩ rfl).1⟩

/-- C3 — counterexample: processing a delete event marks it `done` without
fetching, but the local `EntityRecord` row for that `entity_id` is NOT
deleted — the table still contains it afterwards, refuting "deletes the
local EntityRecord row with that entity_id from the entity's table". -/
theorem webhook_delete_keeps_row_cex :
    (processJob 0 .pnone [] [(7, [("id", PVal.pint 7)])] none
      ⟨0, "deal", 7, "ONCRMDEALDELETE", "processing", 0, 0, none⟩).job.status
        = "done" ∧
    (processJob 0 .pnone [] [(7, [("id", PVal.pint 7)])] none
      ⟨0, "deal", 7, "ONCRMDEALDELETE", "processing", 0, 0, none⟩).fetched = false ∧
    ((processJob 0 .pnone [] [(7, [("id", PVal.pint 7)])] none
      ⟨0, "deal", 7, "ONCRMDEALDELETE", "processing", 0, 0, none⟩).table).lookup 7
        = some [("id", PVal.pint 7)] :=
  ⟨rfl, rfl, rfl⟩

/-- C3 (amended): a queued delete/remove event is processed without any
remote fetch and goes straight to status `done`, but the local row is
left untouched — the worker does not delete anything from the entity
table. -/
theorem webhook_delete_marks_done (now : Int) (nowVal : PVal)
    (colmap : List (String × ColMeta)) (table : Tbl PVal)
    (fetch : Option (List (String × PVal))) (job : QEvent)
    (hdel : is_delete_event job.event_name = true) :
    (processJob now nowVal colmap table fetch job).job.status = "done" ∧
    (processJob now nowVal colmap table fetch job).fetched = false ∧
    (processJob now nowVal colmap table fetch job).table = table := by
  refine ⟨?_, ?_, ?_⟩ <;> simp [processJob, hdel]

theorem webhook_delete_marks_done_witness :
    is_delete_event "ONCRMDEALDELETE" = true ∧
    (processJob 0 .pnone [] [] none
      ⟨0, "deal", 7, "ONCRMDEALDELETE", "new", 0, 0, none⟩).table = [] :=
  ⟨rfl, (webhook_delete_marks_done 0 .pnone [] [] none
    ⟨0, "deal", 7, "ONCRMDEALDELETE", "new", 0, 0, none⟩ rfl).2.2⟩

/-- C4: a stored cursor more than the 1000-record safety margin beyond the
maximum locally stored id is reset to zero (and persisted as zero) before
fetching; a cursor within the margin is returned unchanged with no
reset. -/
theorem validate_sync_cursor_resets_stale (last m : Int) (hm : 0 ≤ m) :
    (m + 1000 < last → validate_sync_cursor last (some m) = (0, true)) ∧
    (last ≤ m + 1000 → validate_sync_cursor last (some m) = (last, false)) := by
  constructor
  · intro h
    unfold validate_sync_cursor
    rw [if_neg (by omega : ¬ last = 0)]
    simp only
    rw [if_pos (by omega : last > m + 1000)]
  · intro h
    by_cases h0 : last = 0
    · subst h0
      simp [validate_sync_cursor]
    · unfold validate_sync_cursor
      rw [if_neg h0]
      simp only
      rw [if_neg (by omega : ¬ last > m + 1000)]

theorem validate_sync_cursor_resets_stale_witness :
    validate_sync_cursor 5000 (some 10) = (0, true) ∧
    validate_sync_cursor 50 (some 100) = (50, false) :=
  ⟨(validate_sync_cursor_resets_stale 5000 10 (by decide)).1 (by decide),
   (validate_sync_cursor_resets_stale 50 100 (by decide)).2 (by decide)⟩

/-- C5: `upsert_rows` is idempotent — upserting the same column list and
row twice leaves every column of every stored row, except `updated_at`,
byte-identical to the state after upserting it once. -/
theorem upsert_rows_idempotent {V : Type} (vid : V → Option Int) (now1 now2 : V)
    (t0 : Tbl V) (cols : List String) (vals : List V) (j : Int) (c : String)
    (hc : c ≠ "updated_at") :
    ((upsert_rows vid now2 (upsert_rows vid now1 t0 cols [vals]) cols [vals]).lookup
        j).bind (fun r => r.lookup c)
      = ((upsert_rows vid now1 t0 cols [vals]).lookup j).bind (fun r => r.lookup c) := by
  by_cases hl : vals.length = (dedup_columns cols).length
  · have hstep : ∀ (nv : V) (t : Tbl V),
        upsert_rows vid nv t cols [vals]
          = upsertOne vid nv t ((dedup_columns cols).zip vals) := by
      intro nv t
      unfold upsert_rows
      simp [hl]
    rw [hstep, hstep]
    exact upsertOne_idempotent vid now1 now2 t0 _ j c hc
  · have hstep : ∀ (nv : V) (t : Tbl V), upsert_rows vid nv t cols [vals] = t := by
      intro nv t
      unfold upsert_rows
      simp [hl]
    rw [hstep, hstep]

theorem upsert_rows_idempotent_witness :
    ((upsert_rows some 99 (upsert_rows some 98 ([] : Tbl Int) ["id", "x"] [[7, 5]])
        ["id", "x"] [[7, 5]]).lookup 7).bind (fun r => r.lookup "x")
      = ((upsert_rows some 98 ([] : Tbl Int) ["id", "x"] [[7, 5]]).lookup 7).bind
          (fun r => r.lookup "x") :=
  upsert_rows_idempotent some 98 99 [] ["id", "x"] [7, 5] 7 "x" (by decide)

/-- A key with a successful lookup is seen by `List.any` on the keys. -/
theorem any_key_of_lookup_some {β : Type} (fs : List (String × β)) (v : β)
    (h : fs.lookup "error" = some v) : fs.any (fun kv => kv.1 == "error") = true := by
  induction fs with
  | nil => simp [List.lookup] at h
  | cons hd tl ih =>
    obtain ⟨k, w⟩ := hd
    by_cases hk : ("error" : String) = k
    · subst hk
      simp
    · have hkb : (("error" : String) == k) = false := beq_eq_false_iff_ne.mpr hk
      have hkb2 : (k == "error") = false := beq_eq_false_iff_ne.mpr (Ne.symm hk)
      rw [List.lookup] at h
      rw [hkb] at h
      simp [List.any_cons, hkb2, ih h]

/-- An overload signal can only come from a JSON dict whose `error` value
prints as `OVERLOAD_LIMIT`. -/
theorem overload401_elim (body : Option PVal) (h : overload401 body = true) :
    ∃ fs v, body = some (.pdict fs) ∧ fs.lookup "error" = some v ∧
      (pyStr v == "OVERLOAD_LIMIT") = true := by
  cases body with
  | none => exact Bool.noConfusion h
  | some pv =>
    cases pv with
    | pdict fs =>
      have h' : (match fs.lookup "error" with
          | some v => pyStr v == "OVERLOAD_LIMIT"
          | none => false) = true := h
      cases hv : fs.lookup "error" with
      | none => rw [hv] at h'; exact Bool.noConfusion h'
      | some v =>
        rw [hv] at h'
        exact ⟨fs, v, rfl, hv, h'⟩
    | pnone => exact Bool.noConfusion h
    | pbool b => exact Bool.noConfusion h
    | pint n => exact Bool.noConfusion h
    | pstr s => exact Bool.noConfusion h
    | plist xs => exact Bool.noConfusion h
    | pjson w => exact Bool.noConfusion h

/-- On an overload signal, one iteration of the call loop returns the
empty successful result immediately. -/
theorem callStep_overload (r : HttpResp) (hr : isOverloadSignal r = true) :
    callStep r = .finish (.ok overloadResult) := by
  cases r with
  | transportFail => exact Bool.noConfusion hr
  | resp status body =>
    unfold isOverloadSignal at hr
    rw [Bool.and_eq_true, Bool.or_eq_true, beq_iff_eq, beq_iff_eq] at hr
    obtain ⟨hst, hov⟩ := hr
    obtain ⟨fs, v, rfl, hv, hps⟩ := overload401_elim body hov
    rcases hst with h4 | h2
    · subst h4
      have hb : overload401 (some (.pdict fs)) = true := by
        show (match fs.lookup "error" with
          | some v => pyStr v == "OVERLOAD_LIMIT"
          | none => false) = true
        rw [hv]
        exact hps
      simp [callStep, hb]
    · subst h2
      simp [callStep, pyHasErrorKey, pyGetError, hv,
        any_key_of_lookup_some fs v hv, hps]

/-- The call loop skips any run of retryable outcomes and stops at the
overload signal. -/
theorem callLoop_skips_retryable (rest : List HttpResp) (r : HttpResp)
    (hr : isOverloadSignal r = true) :
    ∀ (pre : List HttpResp) (maxR : Nat), (∀ x ∈ pre, callStep x = .again) →
      pre.length < maxR →
      callLoop maxR (pre ++ r :: rest) = .ok overloadResult := by
  intro pre
  induction pre with
  | nil =>
    intro maxR _ hlen
    obtain ⟨n, rfl⟩ : ∃ n, maxR = n + 1 := ⟨maxR - 1, by omega⟩
    simp only [List.nil_append, callLoop, callStep_overload r hr]
  | cons x pre ih =>
    intro maxR hpre hlen
    obtain ⟨n, rfl⟩ : ∃ n, maxR = n + 1 := ⟨maxR - 1, by omega⟩
    have hx : callStep x = .again := hpre x (List.mem_cons_self x pre)
    simp only [List.cons_append, callLoop, hx]
    exact ih n (fun y hy => hpre y (List.mem_cons_of_mem x hy))
      (by simp only [List.length_cons] at hlen; omega)

/-- C6: whenever the remote side reports the explicit overload/blocked
signal (`OVERLOAD_LIMIT`, via HTTP 401 or in the response body of a 200),
`BitrixClient.call` returns normally with `{"error": "OVERLOAD_LIMIT",
"result": []}` — an empty record list — instead of raising, no matter how
many retryable outcomes preceded it within the attempt budget. -/
theorem bitrix_call_overload_empty (pre : List HttpResp) (r : HttpResp)
    (rest : List HttpResp) (maxR : Nat)
    (hpre : ∀ x ∈ pre, callStep x = .again) (hlen : pre.length < maxR)
    (hr : isOverloadSignal r = true) :
    bitrix_call maxR (pre ++ r :: rest) = .ok overloadResult ∧
    jGet overloadResult "result" = some (.plist []) :=
  ⟨callLoop_skips_retryable rest r hr pre maxR hpre hlen, rfl⟩

theorem bitrix_call_overload_empty_witness :
    bitrix_call 8 [HttpResp.transportFail,
      HttpResp.resp 200 (some (.pdict [("error", .pstr "OVERLOAD_LIMIT")]))]
      = CallResult.ok overloadResult :=
  (bitrix_call_overload_empty [HttpResp.transportFail]
    (HttpResp.resp 200 (some (.pdict [("error", .pstr "OVERLOAD_LIMIT")]))) [] 8
    (by
      intro x hx
      have hx' := List.mem_singleton.mp hx
      subst hx'
      rfl)
    (by decide) rfl).1

/-- C7: every remote field name is sanitized and assigned a local column
name in declaration order; the assigned names are pairwise distinct, the
first writer of a sanitized base keeps the bare name, and a collision
deterministically receives a numeric suffix `≥ 2` that is itself not yet
taken. -/
theorem assigned_columns_distinct (fields : List String) :
    (assign_columns fields).Nodup ∧
    (∀ existing base, base ∉ existing → unique_column_name existing base = base) ∧
    (∀ existing base, base ∈ existing → ∃ i, 2 ≤ i ∧
        unique_column_name existing base = colCandidate base i ∧
        colCandidate base i ∉ existing) := by
  refine ⟨(assignGo_nodup_disjoint fields _).1, ?_, ?_⟩
  · intro ex b hb
    unfold unique_column_name
    rw [if_neg hb]
  · intro ex b hb
    unfold unique_column_name
    rw [if_pos hb]
    cases hfind : (List.range (ex.length + 1)).find?
        (fun k => decide (colCandidate b (k + 2) ∉ ex)) with
    | some k =>
      refine ⟨k + 2, by omega, rfl, ?_⟩
      have := List.find?_some hfind
      simpa using this
    | none =>
      exfalso
      obtain ⟨k, hk, hfree⟩ := exists_fresh_candidate ex b
      have hmemr : k ∈ List.range (ex.length + 1) := List.mem_range.mpr hk
      have := List.find?_eq_none.mp hfind k hmemr
      simp [hfree] at this

theorem assigned_columns_distinct_witness :
    (assign_columns ["TITLE", "Title", "UF_CRM_1"]).Nodup ∧
    unique_column_name ["title"] "x" = "x" :=
  ⟨(assigned_columns_distinct ["TITLE", "Title", "UF_CRM_1"]).1,
   (assigned_columns_distinct []).2.1 ["title"] "x" (by decide)⟩

/-- C8: after a sync step of the offset-ordered contact sync in which the
server returned a next-page token, the persisted cursor equals that token
and the following request starts from it. -/
theorem contact_sync_cursor_next_token (limit : Int) (st : ContactSyncState)
    (resp : PVal) (items : List PVal) (n : Int)
    (hresp : normalize_list_result (some (overload_to_empty resp))
      = some (items, some n))
    (hne : items ≠ []) :
    (sync_contact_step limit st resp).1.cursor = n ∧
    (sync_contact_step limit st resp).1.last_offset = n ∧
    contact_request ((sync_contact_step limit st resp).1.last_offset)
      = contact_request n := by
  cases items with
  | nil => exact absurd rfl hne
  | cons a l =>
    unfold sync_contact_step
    rw [hresp]
    exact ⟨rfl, rfl, rfl⟩

theorem contact_sync_cursor_next_token_witness :
    (sync_contact_step 0 ⟨0, 0, 0⟩
      (.pdict [("result", .plist [.pdict [("ID", .pstr "5")]]),
               ("next", .pint 50)])).1.cursor = 50 :=
  (contact_sync_cursor_next_token 0 ⟨0, 0, 0⟩
    (.pdict [("result", .plist [.pdict [("ID", .pstr "5")]]), ("next", .pint 50)])
    [.pdict [("ID", .pstr "5")]] 50 rfl (List.cons_ne_nil _ _)).1

/-- Each pass through the throttle fires no earlier than the recorded
last-call time plus the minimum interval. -/
theorem throttle_fire_ge (m t : ℚ) (s : ThrottleState) :
    s.last + m ≤ (throttle m t s).1 := by
  unfold throttle
  dsimp only
  split
  · exact le_refl _
  · next h => linarith [not_lt.mp h]

/-- C9 (amended): calls serialized through the shared `_throttle` (each
call completing before the next begins) fire at times spaced at least the
configured minimum interval apart, whatever their arrival times; because
`_last_call_ts` is read and written without a lock, the guarantee does
not extend to concurrent callers (see the race counterexample). -/
theorem throttle_sequential_spacing (m : ℚ) (s : ThrottleState) (ts : List ℚ) :
    List.Chain' (fun a b => a + m ≤ b) (throttleRun m s ts) := by
  induction ts generalizing s with
  | nil => simp [throttleRun]
  | cons t ts ih =>
    simp only [throttleRun]
    rw [List.chain'_cons']
    constructor
    · intro b hb
      cases ts with
      | nil => simp [throttleRun] at hb
      | cons t' ts' =>
        simp only [throttleRun, List.head?_cons, Option.mem_some_iff] at hb
        subst hb
        have hge := throttle_fire_ge m t' (throttle m t s).2
        have hlast : (throttle m t s).2.last = (throttle m t s).1 := rfl
        rw [hlast] at hge
        exact hge
    · exact ih (throttle m t s).2

/-- C9 — counterexample: two threads entering `_throttle` concurrently can
both read the same stale `_last_call_ts`, both skip the sleep, and fire at
the same instant — zero separation, below any positive minimum interval —
so the claimed spacing for concurrent callers does not hold. -/
theorem throttle_race_unspaced_cex :
    racedFires 1 0 5 5 = (5, 5) ∧
    (racedFires 1 0 5 5).2 - (racedFires 1 0 5 5).1 < 1 := by
  constructor
  · norm_num [racedFires, throttle]
  · norm_num [racedFires, throttle]

/-- C10: the `normalize_value` actually applied (the later of the two
module-level definitions, which shadows the earlier one) performs no type
coercion on non-multiple scalars — a boolean-typed `"Y"` and a
numeric-typed `"12,5"` are stored unchanged; its only scalar
transformation maps empty/whitespace-only strings of non-text-typed
fields to `None`, while dict/list values and multiple-valued fields are
wrapped as JSON. -/
theorem normalize_value_no_coercion :
    normalize_value (.pstr "Y") (some "boolean") false = .pstr "Y" ∧
    normalize_value (.pstr "12,5") (some "double") false = .pstr "12,5" ∧
    (∀ s bt, pyStrip s = "" → isTextType bt = false →
        normalize_value (.pstr s) bt false = .pnone) ∧
    (∀ s bt, pyStrip s = "" → isTextType bt = true →
        normalize_value (.pstr s) bt false = .pstr s) ∧
    (∀ s bt, pyStrip s ≠ "" → normalize_value (.pstr s) bt false = .pstr s) ∧
    (∀ n bt, normalize_value (.pint n) bt false = .pint n) ∧
    (∀ b bt, normalize_value (.pbool b) bt false = .pbool b) ∧
    (∀ xs bt m, normalize_value (.plist xs) bt m = .pjson (.plist xs)) ∧
    (∀ fs bt m, normalize_value (.pdict fs) bt m = .pjson (.pdict fs)) ∧
    (∀ s bt, normalize_value (.pstr s) bt true = .pjson (.plist [.pstr s])) := by
  refine ⟨rfl, rfl, ?_, ?_, ?_, ?_, ?_, ?_, ?_, ?_⟩
  · intro s bt h1 h2
    simp [normalize_value, h1, h2]
  · intro s bt h1 h2
    simp [normalize_value, h1, h2]
  · intro s bt h
    simp [normalize_value, h]
  · intro n bt
    rfl
  · intro b bt
    rfl
  · intro xs bt m
    cases m <;> rfl
  · intro fs bt m
    cases m <;> rfl
  · intro s bt
    rfl

theorem normalize_value_no_coercion_witness :
    pyStrip " " = "" ∧ isTextType (some "double") = false ∧
    normalize_value (.pstr " ") (some "double") false = .pnone :=
  ⟨rfl, rfl, (normalize_value_no_coercion).2.2.1 " " (some "double") rfl rfl⟩

end CRM
